import Mathlib

/-!
Shallow embedding of the WheelPros inventory import pipeline
(src/download_wheelpros.py): archive member resolution, CSV row
normalization, destination-sheet publishing, audit-log reconciliation
(append, sort descending by timestamp text, recompute the
"Change from Previous Day" column), and the end-of-run notification
consumption, together with theorems settling the specification claims.
-/

namespace WheelPros

/-- A spreadsheet cell as it flows through the script: either text or a
numeric value.  The sheet API returns every cell as text; a cell written as
a Python float is modelled as the rational it denotes, so that reading it
back and re-parsing it with float(...) recovers the same number. -/
inductive Cell where
  | str : String → Cell
  | num : ℚ → Cell
  deriving DecidableEq

/-- Value of a list of ASCII decimal digit characters, most significant
first, exactly as Python computes int(val) on a digit string. -/
def digitsToNat (cs : List Char) : Nat :=
  cs.foldl (fun n c => 10 * n + (c.toNat - 48)) 0

/-- Models Python float(s) on the plain decimal literals this sheet holds:
optional sign, integer digits, an optional point and fractional digits,
with at least one digit overall.  Exponents, infinities, nan and
surrounding whitespace, which Python would also accept, do not occur in
this feed and are not modelled. -/
def parseDecimal? (s : String) : Option ℚ :=
  let rest : List Char :=
    match s.data with
    | '-' :: r => r
    | '+' :: r => r
    | r => r
  let neg : Bool := match s.data with
    | '-' :: _ => true
    | _ => false
  let intPart := rest.takeWhile Char.isDigit
  match rest.dropWhile Char.isDigit with
  | [] =>
      if intPart = [] then none
      else some (cond neg (-(digitsToNat intPart : ℚ)) (digitsToNat intPart : ℚ))
  | '.' :: fracPart =>
      if fracPart.all Char.isDigit ∧ (intPart ≠ [] ∨ fracPart ≠ []) then
        let mag : ℚ := (digitsToNat intPart : ℚ)
          + (digitsToNat fracPart : ℚ) / 10 ^ fracPart.length
        some (cond neg (-mag) mag)
      else none
  | _ => none

/-- Reading a cell back through get_all_values and float(...): a numeric
cell round-trips to its value, a text cell goes through the decimal parser,
and anything else raises in Python, i.e. yields none. -/
def parseCell : Cell → Option ℚ
  | .num q => some q
  | .str s => parseDecimal? s

/-- Fuel-indexed worker computing the little-endian decimal digits of a
natural number; the fuel only serves structural recursion and any amount
above the argument is enough. -/
def natDigitsRevFuel : Nat → Nat → List Char
  | 0, _ => []
  | f + 1, n =>
      if n < 10 then [Nat.digitChar n]
      else Nat.digitChar (n % 10) :: natDigitsRevFuel f (n / 10)

/-- Little-endian list of decimal digit characters of a natural number,
the digits Python str(...) would print, least significant first. -/
def natDigitsRev (n : Nat) : List Char :=
  natDigitsRevFuel (n + 1) n

theorem natDigitsRevFuel_congr :
    ∀ n f₁ f₂, n < f₁ → n < f₂ → natDigitsRevFuel f₁ n = natDigitsRevFuel f₂ n := by
  intro n
  induction n using Nat.strong_induction_on with
  | _ n ih =>
    intro f₁ f₂ h₁ h₂
    obtain ⟨g₁, rfl⟩ : ∃ g, f₁ = g + 1 := ⟨f₁ - 1, by omega⟩
    obtain ⟨g₂, rfl⟩ : ∃ g, f₂ = g + 1 := ⟨f₂ - 1, by omega⟩
    by_cases h : n < 10
    · simp [natDigitsRevFuel, h]
    · have hd : n / 10 < n := Nat.div_lt_self (by omega) (by omega)
      simp only [natDigitsRevFuel, if_neg h]
      rw [ih (n / 10) hd g₁ g₂ (by omega) (by omega)]

theorem natDigitsRev_eq (n : Nat) :
    natDigitsRev n
      = if n < 10 then [Nat.digitChar n]
        else Nat.digitChar (n % 10) :: natDigitsRev (n / 10) := by
  by_cases h : n < 10
  · simp [natDigitsRev, natDigitsRevFuel, h]
  · have hd : n / 10 < n := Nat.div_lt_self (by omega) (by omega)
    simp only [natDigitsRev, natDigitsRevFuel, if_neg h]
    rw [natDigitsRevFuel_congr (n / 10) n (n / 10 + 1) (by omega) (by omega)]
    simp only [natDigitsRevFuel]

/-- String form of a natural number in minimal decimal, modelling Python
str on a nonnegative int. -/
def natRepr (n : Nat) : String :=
  String.mk (natDigitsRev n).reverse

/-- Embeds strip_leading_zeros: when the text value is nonempty and all
decimal digits — Python val.isdigit(), modelled at the ASCII level — the
value is replaced by str(int(val)); every other string is returned
unchanged. -/
def strip_leading_zeros (val : String) : String :=
  if val ≠ "" ∧ val.data.all Char.isDigit then natRepr (digitsToNat val.data)
  else val

/-- The PartNumber normalization applied to a cell: Python rewrites only
instances of str, so a numeric cell passes the isinstance(val, str) test
and is returned unchanged. -/
def strip_cell : Cell → Cell
  | .str s => .str (strip_leading_zeros s)
  | .num q => .num q

/-- Claim-side reading of a digit string as a positional base-10 numeral. -/
def decimalValue (s : String) : Nat :=
  Nat.ofDigits 10 ((s.data.map fun c => c.toNat - 48).reverse)

/-- Claim-side statement that s is the minimal decimal rendering of n:
nonempty, all digits, positionally denoting n, and with no leading zero
except for the single digit "0" itself. -/
def minimalDecimalOf (n : Nat) (s : String) : Prop :=
  s ≠ "" ∧ s.data.all Char.isDigit ∧ decimalValue s = n ∧
    (s.data.head? = some '0' → s = "0")

theorem digitsToNat_eq_ofDigits (cs : List Char) :
    digitsToNat cs = Nat.ofDigits 10 ((cs.map fun c => c.toNat - 48).reverse) := by
  suffices h : ∀ (cs : List Char) (a : Nat),
      cs.foldl (fun n c => 10 * n + (c.toNat - 48)) a
        = a * 10 ^ cs.length + Nat.ofDigits 10 ((cs.map fun c => c.toNat - 48).reverse) by
    simpa [digitsToNat] using h cs 0
  intro cs
  induction cs with
  | nil => intro a; simp [Nat.ofDigits]
  | cons c cs ih =>
      intro a
      simp only [List.foldl_cons, List.map_cons, List.reverse_cons, Nat.ofDigits_append,
        List.length_map, List.length_reverse, List.length_cons, ih]
      simp [Nat.ofDigits, pow_succ]
      ring

theorem digitChar_isDigit {m : Nat} (h : m < 10) : (Nat.digitChar m).isDigit = true := by
  interval_cases m <;> decide

theorem digitChar_toNat {m : Nat} (h : m < 10) : (Nat.digitChar m).toNat - 48 = m := by
  interval_cases m <;> decide

theorem digitChar_eq_zero_iff {m : Nat} (h : m < 10) :
    Nat.digitChar m = '0' ↔ m = 0 := by
  interval_cases m <;> simp <;> decide

theorem natDigitsRev_ne_nil (n : Nat) : natDigitsRev n ≠ [] := by
  rw [natDigitsRev_eq]
  split <;> simp

theorem natDigitsRev_all_digits (n : Nat) :
    (natDigitsRev n).all Char.isDigit = true := by
  induction n using Nat.strong_induction_on with
  | _ n ih =>
    rw [natDigitsRev_eq]
    split
    · next h => simp [digitChar_isDigit h]
    · next h =>
      have hd : n / 10 < n := Nat.div_lt_self (by omega) (by omega)
      simp [digitChar_isDigit (Nat.mod_lt n (by omega)), ih _ hd]

theorem ofDigits_natDigitsRev (n : Nat) :
    Nat.ofDigits 10 ((natDigitsRev n).map fun c => c.toNat - 48) = n := by
  induction n using Nat.strong_induction_on with
  | _ n ih =>
    rw [natDigitsRev_eq]
    split
    · next h => simp [Nat.ofDigits, digitChar_toNat h]
    · next h =>
      have hd : n / 10 < n := Nat.div_lt_self (by omega) (by omega)
      simp only [List.map_cons, Nat.ofDigits_cons, ih _ hd,
        digitChar_toNat (Nat.mod_lt n (by omega))]
      omega

theorem decimalValue_natRepr (n : Nat) : decimalValue (natRepr n) = n := by
  simp only [decimalValue, natRepr]
  rw [List.map_reverse, List.reverse_reverse]
  exact ofDigits_natDigitsRev n

theorem natDigitsRev_getLast_ne_zero (n : Nat) (hn : n ≠ 0) :
    ∀ c, (natDigitsRev n).getLast? = some c → c ≠ '0' := by
  induction n using Nat.strong_induction_on with
  | _ n ih =>
    intro c hc
    rw [natDigitsRev_eq] at hc
    split at hc
    · next h =>
      simp only [List.getLast?_singleton, Option.some.injEq] at hc
      subst hc
      exact fun h0 => hn ((digitChar_eq_zero_iff h).mp h0)
    · next h =>
      have hd : n / 10 < n := Nat.div_lt_self (by omega) (by omega)
      obtain ⟨x, hx⟩ : ∃ x, (natDigitsRev (n / 10)).getLast? = some x :=
        ⟨_, List.getLast?_eq_getLast_of_ne_nil (natDigitsRev_ne_nil _)⟩
      rw [List.getLast?_cons, hx] at hc
      simp only [Option.getD_some, Option.some.injEq] at hc
      subst hc
      exact ih _ hd (by omega) x hx

theorem natRepr_zero : natRepr 0 = "0" := by decide

theorem natRepr_minimal (n : Nat) : minimalDecimalOf n (natRepr n) := by
  refine ⟨?_, ?_, decimalValue_natRepr n, ?_⟩
  · intro h
    have : (natDigitsRev n).reverse = [] := congrArg String.data h
    exact natDigitsRev_ne_nil n (by simpa using this)
  · show ((natDigitsRev n).reverse.all Char.isDigit) = true
    rw [List.all_reverse]
    exact natDigitsRev_all_digits n
  · intro hhead
    by_cases hn : n = 0
    · subst hn; exact natRepr_zero
    · exfalso
      have hlast : (natDigitsRev n).getLast? = some '0' := by
        rw [← List.head?_reverse]
        exact hhead
      exact natDigitsRev_getLast_ne_zero n hn '0' hlast rfl

/-- Name of the CSV the pipeline extracts from the archive. -/
def TARGET_CSV : String := "wheelInvPriceData.csv"

/-- The archive-member test of main, step 4: the entry name, lowercased,
either ends with "/" plus the lowercased target or equals the lowercased
target.  Python str.lower is modelled by mapping Char.toLower over the
characters, ASCII lowering, which covers the names this feed produces. -/
def member_matches (f target : String) : Bool :=
  ('/' :: target.data.map Char.toLower).isSuffixOf (f.data.map Char.toLower)
    || f.data.map Char.toLower == target.data.map Char.toLower

/-- Embeds the generator-with-default of main, step 4: the first entry of
the archive listing that matches the target, or none, upon which the
script raises (ArchiveMemberNotFound). -/
def find_target (filelist : List String) (target : String) : Option String :=
  filelist.find? (fun f => member_matches f target)

/-- Claim-side statement that an entry names the target case-insensitively,
exactly or as a path suffix of the form .../target. -/
def namesTarget (f target : String) : Prop :=
  f.data.map Char.toLower = target.data.map Char.toLower ∨
    ∃ pre : List Char,
      f.data.map Char.toLower = pre ++ '/' :: target.data.map Char.toLower

/-- Required columns, in the fixed order main projects them. -/
def needed_columns : List String := ["PartNumber", "PartDescription", "TotalQOH"]

/-- Raw tabular data extracted from the CSV: a header of column names and
rows of cells aligned positionally with the header; none models a
missing or null (NaN) cell. -/
structure CsvTable where
  header : List String
  rows : List (List (Option Cell))

/-- Cell of a raw row under a named column: the position of the column name
in the header (pandas column lookup, first occurrence), then the cell
stored there; a short row reads as null there, as pandas pads with NaN. -/
def select_cell (header : List String) (row : List (Option Cell)) (c : String) :
    Option Cell :=
  match header.indexOf? c with
  | some k => (row.get? k).join
  | none => none

/-- fillna('') on one cell: null becomes the empty-string sentinel. -/
def fill_empty (o : Option Cell) : Cell := o.getD (Cell.str "")

/-- One normalized inventory record: the projection of a CSV row to the
required columns with nulls filled and the identifier canonicalized. -/
structure InventoryRow where
  partNumber : Cell
  partDescription : Cell
  totalQOH : Cell
  deriving DecidableEq

/-- Embeds main, lines 196 to 201: collect the required columns absent
from the header and raise naming them if any; otherwise project to
df[needed_columns], fillna(''), and apply strip_leading_zeros over the
PartNumber column. -/
def normalize_table (t : CsvTable) : Except (List String) (List InventoryRow) :=
  let missing := needed_columns.filter (fun c => !(t.header.contains c))
  if missing ≠ [] then .error missing
  else .ok (t.rows.map (fun row =>
    { partNumber := strip_cell (fill_empty (select_cell t.header row "PartNumber"))
      partDescription := fill_empty (select_cell t.header row "PartDescription")
      totalQOH := fill_empty (select_cell t.header row "TotalQOH") }))

/-- Cells of one published row, in the projected column order. -/
def rowCells (r : InventoryRow) : List Cell :=
  [r.partNumber, r.partDescription, r.totalQOH]

/-- Worksheet state: the grid of cells currently stored, row-major. -/
abbrev Grid := List (List Cell)

/-- One row of worksheet.update: the written row overlays the old one cell
by cell, and old cells beyond its width survive. -/
def overlay_row (old new : List Cell) : List Cell :=
  new ++ old.drop new.length

/-- worksheet.update(values): the values are written starting at the
top-left cell, overlaying the existing grid; rows of the old grid below
the written block survive, which is why main clears the sheet first. -/
def update_values : Grid → Grid → Grid
  | old, [] => old
  | [], new => new
  | o :: os, n :: ns => overlay_row o n :: update_values os ns

/-- worksheet.clear(): every cell is removed. -/
def ws_clear (_st : Grid) : Grid := []

/-- Embeds main, step 5: clear Sheet1, then update it with the header row
of column names followed by one row per normalized record. -/
def publish (st : Grid) (rows : List InventoryRow) : Grid :=
  update_values (ws_clear st) ((needed_columns.map Cell.str) :: rows.map rowCells)

/-- One row of the Log worksheet, seven columns wide as the script writes
it.  Columns the script only ever writes as formatted text (timestamp,
label, range, status) are modelled as strings; the TotalQOH and change
columns, whose numeric-versus-text distinction the recompute step reads,
as cells. -/
structure LogRow where
  uploadTime : String
  fileName : String
  rowCount : Cell
  sheetRange : String
  status : String
  totalQOH : Cell
  change : Cell
  deriving DecidableEq

/-- Log worksheet state, row-major, sheet row 1 first. -/
abbrev LogGrid := List LogRow

/-- The canonical header row written when the Log sheet is created. -/
def log_header_row : LogRow :=
  { uploadTime := "Upload Time"
    fileName := "File Name"
    rowCount := .str "Rows"
    sheetRange := "Sheet Range"
    status := "Status"
    totalQOH := .str "TotalQOH"
    change := .str "Change from Previous Day" }

/-- get_or_create_log_sheet: an existing Log sheet is returned as it is; a
missing one is created holding just the canonical header row. -/
def get_or_create_log_sheet : Option LogGrid → LogGrid
  | some g => g
  | none => [log_header_row]

/-- The row log_upload appends: the tracked total is written as a number
and the change cell as the empty string, to be filled by the recompute
step. -/
def mk_log_entry (t fn : String) (rc : ℚ) (rs sm : String) (tq : ℚ) : LogRow :=
  { uploadTime := t, fileName := fn, rowCount := .num rc, sheetRange := rs,
    status := sm, totalQOH := .num tq, change := .str "" }

/-- log_upload appends one entry at the bottom of the sheet. -/
def log_upload (g : LogGrid) (t fn : String) (rc : ℚ) (rs sm : String) (tq : ℚ) :
    LogGrid :=
  g ++ [mk_log_entry t fn rc rs sm tq]

/-- Lexicographic order on character lists by code point, which is how
Python compares the timestamp strings: the empty string first, otherwise
compare head characters and recurse on a tie. -/
def lexLeCh : List Char → List Char → Bool
  | [], _ => true
  | _ :: _, [] => false
  | a :: as, b :: bs => if a < b then true else if b < a then false else lexLeCh as bs

theorem lexLeCh_cons_iff {a b : Char} {as bs : List Char} :
    lexLeCh (a :: as) (b :: bs) = true ↔ a < b ∨ (a = b ∧ lexLeCh as bs = true) := by
  rcases lt_trichotomy a b with h | h | h
  · simp [lexLeCh, h]
  · subst h
    simp [lexLeCh, lt_irrefl]
  · simp [lexLeCh, h, lt_asymm h, ne_of_gt h]

theorem lexLeCh_total : ∀ x y : List Char, lexLeCh x y = true ∨ lexLeCh y x = true
  | [], _ => .inl rfl
  | _ :: _, [] => .inr rfl
  | a :: as, b :: bs => by
      rcases lt_trichotomy a b with h | h | h
      · exact .inl (lexLeCh_cons_iff.mpr (.inl h))
      · subst h
        rcases lexLeCh_total as bs with h' | h'
        · exact .inl (lexLeCh_cons_iff.mpr (.inr ⟨rfl, h'⟩))
        · exact .inr (lexLeCh_cons_iff.mpr (.inr ⟨rfl, h'⟩))
      · exact .inr (lexLeCh_cons_iff.mpr (.inl h))

theorem lexLeCh_trans :
    ∀ x y z : List Char, lexLeCh x y = true → lexLeCh y z = true → lexLeCh x z = true
  | [], _, _, _, _ => rfl
  | _ :: _, [], _, hxy, _ => by simp [lexLeCh] at hxy
  | _ :: _, _ :: _, [], _, hyz => by simp [lexLeCh] at hyz
  | a :: as, b :: bs, c :: cs, hxy, hyz => by
      rcases lexLeCh_cons_iff.mp hxy with hab | ⟨hab, hxy'⟩ <;>
        rcases lexLeCh_cons_iff.mp hyz with hbc | ⟨hbc, hyz'⟩
      · exact lexLeCh_cons_iff.mpr (.inl (lt_trans hab hbc))
      · exact lexLeCh_cons_iff.mpr (.inl (hbc ▸ hab))
      · exact lexLeCh_cons_iff.mpr (.inl (hab ▸ hbc))
      · exact lexLeCh_cons_iff.mpr (.inr ⟨hab.trans hbc, lexLeCh_trans as bs cs hxy' hyz'⟩)

/-- Ordering used by sort_log_sheet: rows with later timestamp text first;
this is key=lambda r: r[0] with reverse=True, lexicographic on code
points as Python compares strings. -/
def laterFirst (a b : LogRow) : Prop :=
  lexLeCh b.uploadTime.data a.uploadTime.data = true

instance : DecidableRel laterFirst :=
  fun a b =>
    inferInstanceAs (Decidable (lexLeCh b.uploadTime.data a.uploadTime.data = true))

instance : IsTotal LogRow laterFirst :=
  ⟨fun a b => lexLeCh_total b.uploadTime.data a.uploadTime.data⟩

instance : IsTrans LogRow laterFirst :=
  ⟨fun _ _ _ hab hbc => lexLeCh_trans _ _ _ hbc hab⟩

/-- sort_log_sheet: with at most one row the sheet is left alone; otherwise
the data rows (all but the header) are stably sorted by timestamp text
descending and the sheet is rewritten as the header then the sorted rows.
Python list.sort is stable, so any stable sort — insertion sort here —
produces the identical row order. -/
def sort_log_sheet (g : LogGrid) : LogGrid :=
  if g.length ≤ 1 then g
  else
    match g with
    | [] => []
    | hdr :: data => hdr :: List.insertionSort laterFirst data

/-- First parseable tracked total at row index j (0-based) or below, in the
sheet as read once at the start of compute_daily_change; this is its inner
loop over j. -/
def prev_total (g : LogGrid) (j : Nat) : Option ℚ :=
  (g.drop j).findSome? (fun r => parseCell r.totalQOH)

/-- The value compute_daily_change writes into the change cell of row i
(0-based): the difference of the row's parsed total and the first
parseable total strictly below it when both exist, otherwise the empty
string. -/
def change_at (g : LogGrid) (i : Nat) : Cell :=
  match (g.get? i).bind (fun r => parseCell r.totalQOH), prev_total g (i + 1) with
  | some t, some p => .num (t - p)
  | _, _ => .str ""

/-- Rewrites the change cell of each row of a tail of the sheet, row index
i onward, with values computed from the whole sheet g; models the
update_cell writes of compute_daily_change, whose reads all happen once
before the loop and are never invalidated, since only change cells are
written and only timestamp and total cells are read. -/
def recompute_from (g : LogGrid) : Nat → LogGrid → LogGrid
  | _, [] => []
  | i, r :: rs => { r with change := change_at g i } :: recompute_from g (i + 1) rs

/-- compute_daily_change: with fewer than three rows (header plus at most
one entry) nothing is written; otherwise every data row's change cell is
rewritten from the parsed totals. -/
def compute_daily_change (g : LogGrid) : LogGrid :=
  if g.length < 3 then g
  else
    match g with
    | [] => []
    | hdr :: data => hdr :: recompute_from g 1 data

/-- The Log Reconciler as main invokes it: append one entry, re-sort, then
recompute the change column. -/
def reconcile (g : LogGrid) (t fn : String) (rc : ℚ) (rs sm : String) (tq : ℚ) :
    LogGrid :=
  compute_daily_change (sort_log_sheet (log_upload g t fn rc rs sm tq))

/-- Claim-side change rule over the data rows d of a reconciled log
(header excluded, newest first): every row whose tracked total parses and
that has a parseable total below it shows their difference as a number,
and every row with no parseable total below it shows blank. -/
def changeRule (d : LogGrid) : Prop :=
  ∀ k : Fin d.length,
    (∀ t p, parseCell (d.get k).totalQOH = some t →
      prev_total d (k.1 + 1) = some p → (d.get k).change = .num (t - p)) ∧
    (prev_total d (k.1 + 1) = none → (d.get k).change = .str "")

/-- Embeds the total at main line 220: pd.to_numeric with errors='coerce'
maps each TotalQOH cell to a number or NaN, and .sum() adds the numbers
while skipping NaN; an all-NaN or empty column sums to 0. -/
def total_qoh (rows : List InventoryRow) : ℚ :=
  (rows.map (fun r => parseCell r.totalQOH)).foldr (fun o acc => o.getD 0 + acc) 0

/-- Errors raised by the pipeline, in the taxonomy of the specification. -/
inductive Err where
  | NotFound
  | LinkNotFound
  | DownloadFailed (status : Nat)
  | ArchiveMemberNotFound
  | SchemaMismatch (missing : List String)
  deriving DecidableEq

/-- Observable actions of one run, in the order they are performed. -/
inductive Event where
  | destCleared
  | destWritten
  | logAppended
  | logSorted
  | logRecomputed
  | consumed
  deriving DecidableEq

/-- Results of the external collaborators consulted by one run.  The Feed
Locator internals (the mail search and the URL pattern match) are
represented by their outcomes — message found or not, link found or not —
which is all that main's control flow inspects. -/
structure Input where
  message? : Option String
  link? : Option String
  downloadStatus : Nat
  filelist : List String
  csv : CsvTable
  now : String

/-- State the pipeline writes: the destination sheet, the log sheet (none
when it does not exist yet) and whether the source notification has been
consumed.  The ZIP copies saved on disk are retention housekeeping outside
the core state. -/
structure World where
  dest : Grid
  log : Option LogGrid
  notifConsumed : Bool

/-- Column letter of the range string in main: chr(64 + n) for n at most
26, else the letter Z. -/
def colLetter (n : Nat) : String :=
  if n ≤ 26 then String.mk [Char.ofNat (64 + n)] else "Z"

/-- One full run of main, returning the final state, the trace of
observable actions in order, and the error that aborted the run, if any.
Each failure point returns the state reached so far, mirroring the
uncaught-exception propagation of the script. -/
def run (inp : Input) (w : World) : World × List Event × Option Err :=
  match inp.message? with
  | none => (w, [], some .NotFound)
  | some _ =>
    match inp.link? with
    | none => (w, [], some .LinkNotFound)
    | some _ =>
      if inp.downloadStatus ≠ 200 then
        (w, [], some (.DownloadFailed inp.downloadStatus))
      else
        match find_target inp.filelist TARGET_CSV with
        | none => (w, [], some .ArchiveMemberNotFound)
        | some _ =>
          match normalize_table inp.csv with
          | .error missing => (w, [], some (.SchemaMismatch missing))
          | .ok rows =>
            let w1 : World := { w with dest := publish w.dest rows }
            let label := "WheelPros Email – " ++ inp.now
            let range_str :=
              "A2:" ++ colLetter needed_columns.length ++ natRepr (rows.length + 1)
            let status_msg := "✅ wheelInvPriceData.csv imported successfully."
            let log3 := reconcile (get_or_create_log_sheet w.log) inp.now label
              (rows.length) range_str status_msg (total_qoh rows)
            let w2 : World := { w1 with log := some log3, notifConsumed := true }
            (w2, [.destCleared, .destWritten, .logAppended, .logSorted,
              .logRecomputed, .consumed], none)

theorem member_matches_iff (f target : String) :
    member_matches f target = true ↔ namesTarget f target := by
  simp only [member_matches, namesTarget, Bool.or_eq_true, beq_iff_eq,
    List.isSuffixOf_iff_suffix, List.IsSuffix]
  constructor
  · rintro (⟨t, ht⟩ | he)
    · exact .inr ⟨t, ht.symm⟩
    · exact .inl he
  · rintro (he | ⟨pre, hp⟩)
    · exact .inr he
    · exact .inl ⟨pre, hp.symm⟩

theorem find_target_some {filelist : List String} {target m : String}
    (h : find_target filelist target = some m) : m ∈ filelist ∧ namesTarget m target := by
  have h' : filelist.find? (fun f => member_matches f target) = some m := h
  have hpa := List.find?_some h'
  exact ⟨List.mem_of_find?_eq_some h', (member_matches_iff m target).mp hpa⟩

theorem find_target_eq_none_iff {filelist : List String} {target : String} :
    find_target filelist target = none ↔ ∀ f ∈ filelist, ¬namesTarget f target := by
  simp only [find_target, List.find?_eq_none]
  exact forall_congr' fun f => forall_congr' fun _ => not_congr (member_matches_iff f target)

/-- C3: for every identifier value whose text consists only of decimal
digits, normalization returns the minimal decimal string of its integer
value — re-parsing to the same value, nonempty, all digits, and with no
leading zero unless it is "0" itself; for every other identifier value,
normalization returns the value unchanged. -/
theorem C3_identifier_normalization (val : String) :
    (val ≠ "" ∧ val.data.all Char.isDigit →
      minimalDecimalOf (decimalValue val) (strip_leading_zeros val)) ∧
    (¬(val ≠ "" ∧ val.data.all Char.isDigit) → strip_leading_zeros val = val) := by
  constructor
  · intro h
    rw [strip_leading_zeros, if_pos h, digitsToNat_eq_ofDigits]
    exact natRepr_minimal _
  · intro h
    rw [strip_leading_zeros, if_neg h]

theorem C3_identifier_normalization_witness :
    minimalDecimalOf (decimalValue "00452") (strip_leading_zeros "00452") ∧
    strip_leading_zeros "R17x8" = "R17x8" ∧
    strip_leading_zeros "00452" = "452" :=
  ⟨(C3_identifier_normalization "00452").1 (by decide),
   (C3_identifier_normalization "R17x8").2 (by decide),
   by decide⟩

/-- C4: the Archive Resolver selects only a listed member that names the
target case-insensitively, exactly or as a path suffix of the form
.../target, and comes back empty — upon which the script raises
ArchiveMemberNotFound — exactly when no member names the target, so it
never falls back to a non-matching member. -/
theorem C4_archive_member_resolution (filelist : List String) (target : String) :
    (∀ m, find_target filelist target = some m → m ∈ filelist ∧ namesTarget m target) ∧
    (find_target filelist target = none ↔ ∀ f ∈ filelist, ¬namesTarget f target) :=
  ⟨fun _ h => find_target_some h, find_target_eq_none_iff⟩

theorem C4_archive_member_resolution_witness :
    ("DATA/WheelInvPriceData.CSV" ∈ ["readme.txt", "DATA/WheelInvPriceData.CSV"] ∧
      namesTarget "DATA/WheelInvPriceData.CSV" TARGET_CSV) ∧
    ¬namesTarget "readme.txt" TARGET_CSV :=
  ⟨(C4_archive_member_resolution ["readme.txt", "DATA/WheelInvPriceData.CSV"]
      TARGET_CSV).1 "DATA/WheelInvPriceData.CSV" rfl,
   (C4_archive_member_resolution ["readme.txt"] TARGET_CSV).2.mp rfl "readme.txt"
      (by decide)⟩

/-- C5: the Row Normalizer fails exactly when at least one required column
is absent from the input header, and the error names exactly the required
columns that are absent. -/
theorem C5_schema_mismatch (t : CsvTable) :
    ((∃ e, normalize_table t = .error e) ↔ ∃ c ∈ needed_columns, c ∉ t.header) ∧
    (∀ e, normalize_table t = .error e →
      ∀ c, c ∈ e ↔ (c ∈ needed_columns ∧ c ∉ t.header)) := by
  have hmem : ∀ c, c ∈ needed_columns.filter (fun c => !(t.header.contains c))
      ↔ (c ∈ needed_columns ∧ c ∉ t.header) := by
    intro c
    simp [List.mem_filter]
  constructor
  · constructor
    · rintro ⟨e, he⟩
      simp only [normalize_table] at he
      split at he
      · next hne =>
        obtain ⟨c, hc⟩ := List.exists_mem_of_ne_nil _ hne
        exact ⟨c, ((hmem c).mp hc).1, ((hmem c).mp hc).2⟩
      · exact absurd he (by simp)
    · rintro ⟨c, hc, hn⟩
      refine ⟨needed_columns.filter (fun c => !(t.header.contains c)), ?_⟩
      simp only [normalize_table]
      rw [if_pos (List.ne_nil_of_mem ((hmem c).mpr ⟨hc, hn⟩))]
  · intro e he c
    simp only [normalize_table] at he
    split at he
    · next =>
      obtain rfl : needed_columns.filter (fun c => !(t.header.contains c)) = e :=
        Except.error.inj he
      exact hmem c
    · exact absurd he (by simp)

theorem C5_schema_mismatch_witness :
    normalize_table ⟨["PartNumber", "Qty"], []⟩ = .error ["PartDescription", "TotalQOH"] ∧
    ("TotalQOH" ∈ ["PartDescription", "TotalQOH"] ↔
      ("TotalQOH" ∈ needed_columns ∧ "TotalQOH" ∉ ["PartNumber", "Qty"])) :=
  ⟨rfl,
   (C5_schema_mismatch ⟨["PartNumber", "Qty"], []⟩).2 ["PartDescription", "TotalQOH"]
     rfl "TotalQOH"⟩

/-- C6: when every required column is present, normalization yields one
record per input row; each record's published cells are exactly the input
row's cells under the required columns, in the fixed order, with the
identifier canonicalized; a missing or null input cell becomes the
empty-string sentinel, which is a text cell and never the number zero. -/
theorem C6_projection_and_null_fill (t : CsvTable) (rows : List InventoryRow)
    (h : normalize_table t = .ok rows) :
    rows.length = t.rows.length ∧
    (∀ (i : Nat) (hi : i < rows.length) (hi' : i < t.rows.length),
      rowCells (rows.get ⟨i, hi⟩) =
        [strip_cell (fill_empty (select_cell t.header (t.rows.get ⟨i, hi'⟩) "PartNumber")),
         fill_empty (select_cell t.header (t.rows.get ⟨i, hi'⟩) "PartDescription"),
         fill_empty (select_cell t.header (t.rows.get ⟨i, hi'⟩) "TotalQOH")]) ∧
    (∀ o : Option Cell, o = none → fill_empty o = .str "") ∧
    strip_cell (fill_empty none) = .str "" ∧
    (∀ q : ℚ, fill_empty none ≠ .num q) := by
  simp only [normalize_table] at h
  split at h
  · exact absurd h (by simp)
  · obtain rfl : _ = rows := Except.ok.inj h
    refine ⟨by simp, ?_, fun o ho => by simp [ho, fill_empty], rfl, ?_⟩
    · intro i hi hi'
      simp [rowCells]
    · intro q hq
      exact Cell.noConfusion hq

theorem C6_projection_and_null_fill_witness :
    rowCells ((([⟨Cell.str "7", Cell.str "", Cell.str ""⟩] : List InventoryRow)).get
        ⟨0, by decide⟩) =
      [strip_cell (fill_empty (select_cell
          ["Extra", "PartNumber", "PartDescription", "TotalQOH"]
          [some (Cell.str "x"), some (Cell.str "007"), none, some (Cell.str "")]
          "PartNumber")),
       fill_empty (select_cell ["Extra", "PartNumber", "PartDescription", "TotalQOH"]
          [some (Cell.str "x"), some (Cell.str "007"), none, some (Cell.str "")]
          "PartDescription"),
       fill_empty (select_cell ["Extra", "PartNumber", "PartDescription", "TotalQOH"]
          [some (Cell.str "x"), some (Cell.str "007"), none, some (Cell.str "")]
          "TotalQOH")] ∧
    fill_empty none = Cell.str "" ∧
    fill_empty none ≠ Cell.num 0 :=
  have h := C6_projection_and_null_fill
    ⟨["Extra", "PartNumber", "PartDescription", "TotalQOH"],
     [[some (Cell.str "x"), some (Cell.str "007"), none, some (Cell.str "")]]⟩
    [⟨Cell.str "7", Cell.str "", Cell.str ""⟩] rfl
  ⟨h.2.1 0 (by decide) (by decide), h.2.2.1 none rfl, h.2.2.2.2 0⟩

theorem update_values_nil_left : ∀ new : Grid, update_values [] new = new
  | [] => rfl
  | _ :: _ => rfl

/-- C7: the Publisher fully replaces the destination: for every prior grid
the result is exactly one header row of the column names followed by one
row per normalized record in order, and every row of the result is that
header or one of the new rows, so no prior row survives unless it is
republished. -/
theorem C7_publisher_full_replace (st : Grid) (rows : List InventoryRow) :
    publish st rows = (needed_columns.map Cell.str) :: rows.map rowCells ∧
    (publish st rows).length = 1 + rows.length ∧
    (∀ r ∈ publish st rows,
      r = needed_columns.map Cell.str ∨ ∃ ir ∈ rows, r = rowCells ir) := by
  have hp : publish st rows = (needed_columns.map Cell.str) :: rows.map rowCells :=
    update_values_nil_left _
  refine ⟨hp, by rw [hp]; simp; omega, ?_⟩
  intro r hr
  rw [hp] at hr
  rcases List.mem_cons.mp hr with h | h
  · exact .inl h
  · obtain ⟨ir, hir, rfl⟩ := List.mem_map.mp h
    exact .inr ⟨ir, hir, rfl⟩

theorem C7_publisher_full_replace_witness :
    publish [[Cell.str "stale", Cell.str "row"]]
        [⟨Cell.str "123", Cell.str "Rim A", Cell.num 10⟩]
      = [needed_columns.map Cell.str,
         rowCells ⟨Cell.str "123", Cell.str "Rim A", Cell.num 10⟩] ∧
    (publish [[Cell.str "stale", Cell.str "row"]]
        [⟨Cell.str "123", Cell.str "Rim A", Cell.num 10⟩]).length = 1 + 1 :=
  have h := C7_publisher_full_replace [[Cell.str "stale", Cell.str "row"]]
    [⟨Cell.str "123", Cell.str "Rim A", Cell.num 10⟩]
  ⟨h.1, h.2.1⟩

theorem sort_log_sheet_cons (hdr : LogRow) (data : LogGrid) :
    sort_log_sheet (hdr :: data) = hdr :: List.insertionSort laterFirst data := by
  cases data with
  | nil => rfl
  | cons a l =>
      show (if (hdr :: a :: l).length ≤ 1 then _ else _) = _
      rw [if_neg (by simp only [List.length_cons]; omega)]

theorem compute_daily_change_short (hdr : LogRow) (s : LogGrid) (h : s.length ≤ 1) :
    compute_daily_change (hdr :: s) = hdr :: s := by
  show (if (hdr :: s).length < 3 then _ else _) = _
  rw [if_pos (by simp only [List.length_cons]; omega)]

theorem compute_daily_change_cons (hdr : LogRow) (s : LogGrid) (h : 2 ≤ s.length) :
    compute_daily_change (hdr :: s) = hdr :: recompute_from (hdr :: s) 1 s := by
  show (if (hdr :: s).length < 3 then _ else _) = _
  rw [if_neg (by simp only [List.length_cons]; omega)]

theorem recompute_from_length (g : LogGrid) :
    ∀ i l, (recompute_from g i l).length = l.length
  | _, [] => rfl
  | i, r :: rs => by
      simp only [recompute_from, List.length_cons, recompute_from_length g (i + 1) rs]

theorem recompute_from_getElem? (g : LogGrid) :
    ∀ (i : Nat) (l : LogGrid) (k : Nat), (recompute_from g i l)[k]?
      = (l[k]?).map (fun r => ({ r with change := change_at g (i + k) } : LogRow))
  | i, [], k => by simp [recompute_from]
  | i, r :: rs, 0 => by simp [recompute_from]
  | i, r :: rs, k + 1 => by
      simp only [recompute_from, List.getElem?_cons_succ]
      rw [recompute_from_getElem? g (i + 1) rs k,
        show i + 1 + k = i + (k + 1) from by omega]

theorem recompute_from_drop (g : LogGrid) :
    ∀ i l j, (recompute_from g i l).drop j = recompute_from g (i + j) (l.drop j)
  | i, [], j => by simp [recompute_from]
  | i, l, 0 => by simp
  | i, r :: rs, j + 1 => by
      simp only [recompute_from, List.drop_succ_cons]
      rw [recompute_from_drop g (i + 1) rs j,
        show i + 1 + j = i + (j + 1) from by omega]

theorem findSome?_parse_recompute (g : LogGrid) :
    ∀ i l, (recompute_from g i l).findSome? (fun r => parseCell r.totalQOH)
      = l.findSome? (fun r => parseCell r.totalQOH)
  | _, [] => rfl
  | i, r :: rs => by
      simp only [recompute_from, List.findSome?_cons]
      cases parseCell r.totalQOH with
      | none => exact findSome?_parse_recompute g (i + 1) rs
      | some q => rfl

theorem prev_total_recompute (g : LogGrid) (hdr : LogRow) (s : LogGrid) (j : Nat) :
    prev_total (hdr :: recompute_from g 1 s) (j + 1) = prev_total (hdr :: s) (j + 1) := by
  simp only [prev_total, List.drop_succ_cons]
  rw [recompute_from_drop]
  exact findSome?_parse_recompute g (1 + j) (s.drop j)

theorem mem_recompute_from (g : LogGrid) :
    ∀ i l y, y ∈ recompute_from g i l →
      ∃ x ∈ l, y.uploadTime = x.uploadTime ∧ y.totalQOH = x.totalQOH
  | _, [], y, hy => absurd hy (by simp [recompute_from])
  | i, r :: rs, y, hy => by
      simp only [recompute_from, List.mem_cons] at hy
      rcases hy with rfl | hy
      · exact ⟨r, by simp, rfl, rfl⟩
      · obtain ⟨x, hx, h1, h2⟩ := mem_recompute_from g (i + 1) rs y hy
        exact ⟨x, by simp [hx], h1, h2⟩

theorem recompute_from_mem_of_mem (g : LogGrid) :
    ∀ i l x, x ∈ l → ∃ y ∈ recompute_from g i l,
      y.uploadTime = x.uploadTime ∧ y.totalQOH = x.totalQOH
  | _, [], x, hx => absurd hx (by simp)
  | i, r :: rs, x, hx => by
      rcases List.mem_cons.mp hx with rfl | hx
      · exact ⟨{ x with change := change_at g i }, by simp [recompute_from], rfl, rfl⟩
      · obtain ⟨y, hy, h1, h2⟩ := recompute_from_mem_of_mem g (i + 1) rs x hx
        exact ⟨y, by simp [recompute_from, hy], h1, h2⟩

theorem pairwise_recompute_from (g : LogGrid) :
    ∀ i l, List.Pairwise laterFirst l → List.Pairwise laterFirst (recompute_from g i l)
  | _, [], _ => by simp [recompute_from]
  | i, r :: rs, h => by
      obtain ⟨hr, hrs⟩ := List.pairwise_cons.mp h
      simp only [recompute_from]
      refine List.Pairwise.cons ?_ (pairwise_recompute_from g (i + 1) rs hrs)
      intro y hy
      obtain ⟨x, hx, hup, _⟩ := mem_recompute_from g (i + 1) rs y hy
      have hrx := hr x hx
      simpa [laterFirst, hup] using hrx

theorem mem_sort_log_sheet {x : LogRow} {g : LogGrid} (h : x ∈ g) :
    x ∈ sort_log_sheet g := by
  cases g with
  | nil => exact absurd h (by simp)
  | cons hdr data =>
      rw [sort_log_sheet_cons]
      rcases List.mem_cons.mp h with rfl | h
      · exact List.mem_cons_self _ _
      · exact List.mem_cons_of_mem _ ((List.mem_insertionSort laterFirst).mpr h)

theorem compute_preserves_mem {x : LogRow} {g : LogGrid} (h : x ∈ g) :
    ∃ y ∈ compute_daily_change g, y.uploadTime = x.uploadTime ∧ y.totalQOH = x.totalQOH := by
  by_cases hlen : g.length < 3
  · refine ⟨x, ?_, rfl, rfl⟩
    show x ∈ (if g.length < 3 then g else _)
    rwa [if_pos hlen]
  · cases g with
    | nil => simp at h
    | cons hdr data =>
        have hg : compute_daily_change (hdr :: data)
            = hdr :: recompute_from (hdr :: data) 1 data := by
          show (if (hdr :: data).length < 3 then _ else _) = _
          rw [if_neg hlen]
        rw [hg]
        rcases List.mem_cons.mp h with rfl | h
        · exact ⟨x, List.mem_cons_self _ _, rfl, rfl⟩
        · obtain ⟨y, hy, h1, h2⟩ := recompute_from_mem_of_mem _ 1 data x h
          exact ⟨y, List.mem_cons_of_mem _ hy, h1, h2⟩

theorem changeRule_getLast {d : LogGrid} (h : changeRule d) :
    ∀ last, d.getLast? = some last → last.change = .str "" := by
  intro last hl
  have hne : d ≠ [] := by rintro rfl; simp at hl
  have hlen : 0 < d.length := List.length_pos.mpr hne
  have hidx : d.length - 1 < d.length := by omega
  have hget : last = d.get ⟨d.length - 1, hidx⟩ := by
    rw [List.getLast?_eq_getElem?, List.getElem?_eq_getElem hidx] at hl
    simpa using hl.symm
  rw [hget]
  apply (h ⟨d.length - 1, hidx⟩).2
  show prev_total d (d.length - 1 + 1) = none
  rw [show d.length - 1 + 1 = d.length from by omega, prev_total, List.drop_length]
  rfl

theorem compute_changeRule (hdr : LogRow) (s : LogGrid) :
    changeRule (recompute_from (hdr :: s) 1 s) := by
  intro k
  have hklen : k.1 < s.length :=
    lt_of_lt_of_eq k.2 (recompute_from_length (hdr :: s) 1 s)
  have hget : (recompute_from (hdr :: s) 1 s).get k
      = { s.get ⟨k.1, hklen⟩ with change := change_at (hdr :: s) (1 + k.1) } := by
    have h1 := recompute_from_getElem? (hdr :: s) 1 s k.1
    rw [List.getElem?_eq_getElem hklen] at h1
    rw [List.getElem?_eq_getElem k.2] at h1
    simp only [Option.map_some'] at h1
    have h2 := Option.some.inj h1
    simpa [List.get_eq_getElem] using h2
  have htot : ((recompute_from (hdr :: s) 1 s).get k).totalQOH
      = (s.get ⟨k.1, hklen⟩).totalQOH := by rw [hget]
  have hch : ((recompute_from (hdr :: s) 1 s).get k).change
      = change_at (hdr :: s) (1 + k.1) := by rw [hget]
  have hprev : prev_total (recompute_from (hdr :: s) 1 s) (k.1 + 1)
      = prev_total s (k.1 + 1) := by
    simp only [prev_total]
    rw [recompute_from_drop]
    exact findSome?_parse_recompute (hdr :: s) (1 + (k.1 + 1)) (s.drop (k.1 + 1))
  have hcons : (hdr :: s).get? (1 + k.1) = some (s.get ⟨k.1, hklen⟩) := by
    rw [Nat.add_comm 1 k.1, List.get?_cons_succ, List.get?_eq_get hklen]
  have hprev2 : prev_total (hdr :: s) (1 + k.1 + 1) = prev_total s (k.1 + 1) := by
    simp only [prev_total]
    rw [show 1 + k.1 + 1 = (k.1 + 1) + 1 from by omega, List.drop_succ_cons]
  constructor
  · intro tv pv hparse hp
    rw [htot] at hparse
    rw [hch]
    rw [hprev] at hp
    simp only [change_at, hcons, Option.some_bind, hparse, hprev2, hp]
  · intro hp
    rw [hch]
    rw [hprev] at hp
    simp only [change_at, hcons, Option.some_bind, hprev2, hp]
    cases hq : parseCell (s.get ⟨k.1, hklen⟩).totalQOH <;> rfl

/-- C1: after log reconciliation — append, then sort, then recompute — the
header still occupies row 1, the data rows are sorted descending by their
timestamp text, every data row whose tracked total parses and that has a
parseable total below it shows their difference in the change column,
every data row with no parseable total below it shows blank, and in
particular the oldest (bottom) data row's change is always blank. -/
theorem C1_reconciled_log_invariant (hdr : LogRow) (data : LogGrid)
    (t fn rs sm : String) (rc tq : ℚ) :
    (reconcile (hdr :: data) t fn rc rs sm tq).head? = some hdr ∧
    List.Pairwise laterFirst (reconcile (hdr :: data) t fn rc rs sm tq).tail ∧
    changeRule (reconcile (hdr :: data) t fn rc rs sm tq).tail ∧
    (∀ last, (reconcile (hdr :: data) t fn rc rs sm tq).tail.getLast? = some last →
      last.change = .str "") := by
  have hrw : reconcile (hdr :: data) t fn rc rs sm tq
      = compute_daily_change (hdr :: List.insertionSort laterFirst
          (data ++ [mk_log_entry t fn rc rs sm tq])) := by
    rw [reconcile, log_upload, List.cons_append, sort_log_sheet_cons]
  rw [hrw]
  rcases le_or_lt (List.insertionSort laterFirst
      (data ++ [mk_log_entry t fn rc rs sm tq])).length 1 with hlen | hlen
  · have hd0 : data = [] := by
      rw [List.length_insertionSort, List.length_append] at hlen
      have h0 : data.length = 0 := by
        simp only [List.length_singleton] at hlen
        omega
      exact List.length_eq_zero.mp h0
    subst hd0
    have hs : List.insertionSort laterFirst ([] ++ [mk_log_entry t fn rc rs sm tq])
        = [mk_log_entry t fn rc rs sm tq] := rfl
    rw [hs, compute_daily_change_short _ _ (by simp)]
    refine ⟨rfl, by simp, ?_, ?_⟩
    · show changeRule [mk_log_entry t fn rc rs sm tq]
      intro k
      have hk1 : k.1 = 0 := by
        have hk := k.2
        simp only [List.length_singleton] at hk
        omega
      constructor
      · intro tv pv _ hp
        rw [hk1] at hp
        simp [prev_total] at hp
      · intro _
        have hk : k = ⟨0, by simp⟩ := Fin.ext (by rw [hk1])
        rw [hk]
        rfl
    · show ∀ last, [mk_log_entry t fn rc rs sm tq].getLast? = some last →
        last.change = .str ""
      intro last hl
      simp only [List.getLast?_singleton, Option.some.injEq] at hl
      rw [← hl]
      rfl
  · rw [compute_daily_change_cons _ _ hlen]
    exact ⟨rfl,
      pairwise_recompute_from _ _ _ (List.sorted_insertionSort laterFirst _),
      compute_changeRule _ _,
      changeRule_getLast (compute_changeRule _ _)⟩

/-- Log row used by concrete instantiations: an older entry whose change
cell holds a stale value that recomputation overwrites. -/
def sample_old : LogRow :=
  { uploadTime := "2024-01-01 09:00 AM"
    fileName := "WheelPros Email – 2024-01-01 09:00 AM"
    rowCount := .num 2
    sheetRange := "A2:C3"
    status := "ok"
    totalQOH := .num 10
    change := .num 99 }

theorem C1_reconciled_log_invariant_witness :
    (reconcile [log_header_row, sample_old] "2024-01-02 09:00 AM" "f" 2 "A2:C3" "ok" 15).head?
        = some log_header_row ∧
    ((reconcile [log_header_row, sample_old] "2024-01-02 09:00 AM" "f" 2 "A2:C3" "ok"
        15).tail.get ⟨0, by decide⟩).change = .num (15 - 10) ∧
    ({ sample_old with change := Cell.str "" } : LogRow).change = .str "" :=
  have h := C1_reconciled_log_invariant log_header_row [sample_old]
    "2024-01-02 09:00 AM" "f" "A2:C3" "ok" 2 15
  ⟨h.1, (h.2.2.1 ⟨0, by decide⟩).1 15 10 rfl rfl,
   h.2.2.2 { sample_old with change := Cell.str "" } rfl⟩

/-- C2: a log already sorted descending by timestamp text whose change
column already holds exactly the recomputed values is left unchanged by
running Sort followed by Recompute with no new entry appended. -/
theorem C2_sort_recompute_idempotent (hdr : LogRow) (data : LogGrid)
    (hsorted : List.Pairwise laterFirst data)
    (hchange : ∀ k : Fin data.length,
      (data.get k).change = change_at (hdr :: data) (k.1 + 1)) :
    compute_daily_change (sort_log_sheet (hdr :: data)) = hdr :: data := by
  rw [sort_log_sheet_cons, List.Sorted.insertionSort_eq hsorted]
  rcases le_or_lt data.length 1 with hlen | hlen
  · exact compute_daily_change_short hdr data hlen
  · rw [compute_daily_change_cons hdr data hlen]
    congr 1
    apply List.ext_getElem?
    intro k
    rw [recompute_from_getElem? (hdr :: data) 1 data k]
    rcases Nat.lt_or_ge k data.length with hk | hk
    · rw [List.getElem?_eq_getElem hk]
      simp only [Option.map_some']
      have hc := hchange ⟨k, hk⟩
      rw [List.get_eq_getElem] at hc
      rw [Nat.add_comm 1 k, ← hc]
    · rw [List.getElem?_eq_none hk]
      rfl

/-- Log rows used by the idempotence instantiation: a sorted two-entry log
whose change column already holds the recomputed values. -/
def sample_newer : LogRow :=
  { uploadTime := "2024-01-02 09:00 AM"
    fileName := "WheelPros Email – 2024-01-02 09:00 AM"
    rowCount := .num 2
    sheetRange := "A2:C3"
    status := "ok"
    totalQOH := .num 15
    change := .num (15 - 10) }

def sample_older : LogRow :=
  { uploadTime := "2024-01-01 09:00 AM"
    fileName := "WheelPros Email – 2024-01-01 09:00 AM"
    rowCount := .num 2
    sheetRange := "A2:C3"
    status := "ok"
    totalQOH := .num 10
    change := .str "" }

theorem C2_sort_recompute_idempotent_witness :
    compute_daily_change (sort_log_sheet [log_header_row, sample_newer, sample_older])
      = [log_header_row, sample_newer, sample_older] :=
  C2_sort_recompute_idempotent log_header_row [sample_newer, sample_older]
    (by decide) (by intro k; fin_cases k <;> rfl)

theorem total_qoh_eq_sum (rows : List InventoryRow) :
    total_qoh rows = ((rows.map (fun r => parseCell r.totalQOH)).reduceOption).sum := by
  induction rows with
  | nil => rfl
  | cons r rs ih =>
      simp only [total_qoh, List.map_cons, List.foldr_cons] at *
      cases hq : parseCell r.totalQOH with
      | none => simp [hq, ih]
      | some q => simp [hq, ih]

theorem total_qoh_all_none {rows : List InventoryRow}
    (h : ∀ r ∈ rows, parseCell r.totalQOH = none) : total_qoh rows = 0 := by
  induction rows with
  | nil => rfl
  | cons r rs ih =>
      have hr := h r (by simp)
      have hrest := ih (fun x hx => h x (by simp [hx]))
      simp only [total_qoh, List.map_cons, List.foldr_cons, hr] at *
      simp [hrest]

/-- C10: the tracked total of a run is the sum of exactly the parseable
quantity-on-hand cells of the normalized rows — every unparseable cell,
the empty-string sentinel included, contributes nothing, so a run whose
quantity cells are all unparseable records 0 — and a successful run's
reconciled log holds an entry stamped with the run timestamp whose total
cell is that sum, as a number. -/
theorem C10_tracked_total (inp : Input) (w : World) (rows : List InventoryRow)
    (hok : normalize_table inp.csv = .ok rows)
    (hnone : (run inp w).2.2 = none) :
    total_qoh rows = ((rows.map (fun r => parseCell r.totalQOH)).reduceOption).sum ∧
    ((∀ r ∈ rows, parseCell r.totalQOH = none) → total_qoh rows = 0) ∧
    (∃ lg, ((run inp w).1).log = some lg ∧ ∃ entry ∈ lg,
      entry.uploadTime = inp.now ∧ entry.totalQOH = .num (total_qoh rows)) := by
  refine ⟨total_qoh_eq_sum rows, fun h => total_qoh_all_none h, ?_⟩
  cases hm : inp.message? with
  | none => simp [run, hm] at hnone
  | some m =>
    cases hl : inp.link? with
    | none => simp [run, hm, hl] at hnone
    | some l =>
      by_cases hs2 : inp.downloadStatus = 200
      · cases hf : find_target inp.filelist TARGET_CSV with
        | none => simp [run, hm, hl, hs2, hf] at hnone
        | some mem =>
            simp only [run, hm, hl, hs2, hf, hok, ne_eq, not_true_eq_false, if_false,
              reduceIte]
            refine ⟨_, rfl, ?_⟩
            have hmem0 : mk_log_entry inp.now ("WheelPros Email – " ++ inp.now)
                (List.length rows)
                ("A2:" ++ colLetter needed_columns.length ++ natRepr (rows.length + 1))
                "✅ wheelInvPriceData.csv imported successfully." (total_qoh rows)
                ∈ log_upload (get_or_create_log_sheet w.log) inp.now
                  ("WheelPros Email – " ++ inp.now) (List.length rows)
                  ("A2:" ++ colLetter needed_columns.length ++ natRepr (rows.length + 1))
                  "✅ wheelInvPriceData.csv imported successfully." (total_qoh rows) := by
              simp [log_upload]
            have hmem1 := mem_sort_log_sheet hmem0
            obtain ⟨y, hy, h1, h2⟩ := compute_preserves_mem hmem1
            exact ⟨y, hy, by rw [h1]; rfl, by rw [h2]; rfl⟩
      · simp [run, hm, hl, hs2] at hnone

/-- C8: the source notification is marked consumed only as the final
action of a fully successful run — the consumed event closes the trace
and appears nowhere earlier — while on any failing run the Completion
Notifier never executes: no consumed event occurs and the consumption
flag is exactly as before the run. -/
theorem C8_consume_only_last (inp : Input) (w : World) :
    ((run inp w).2.2 = none →
      (run inp w).2.1.getLast? = some .consumed ∧
      Event.consumed ∉ (run inp w).2.1.dropLast ∧
      ((run inp w).1).notifConsumed = true) ∧
    (∀ e, (run inp w).2.2 = some e →
      Event.consumed ∉ (run inp w).2.1 ∧
      ((run inp w).1).notifConsumed = w.notifConsumed) := by
  cases hm : inp.message? with
  | none =>
      refine ⟨fun h => ?_, fun e _ => ?_⟩
      · simp [run, hm] at h
      · simp [run, hm]
  | some m =>
    cases hl : inp.link? with
    | none =>
        refine ⟨fun h => ?_, fun e _ => ?_⟩
        · simp [run, hm, hl] at h
        · simp [run, hm, hl]
    | some l =>
      by_cases hs2 : inp.downloadStatus = 200
      · cases hf : find_target inp.filelist TARGET_CSV with
        | none =>
            refine ⟨fun h => ?_, fun e _ => ?_⟩
            · simp [run, hm, hl, hs2, hf] at h
            · simp [run, hm, hl, hs2, hf]
        | some mem =>
          cases hn : normalize_table inp.csv with
          | error miss =>
              refine ⟨fun h => ?_, fun e _ => ?_⟩
              · simp [run, hm, hl, hs2, hf, hn] at h
              · simp [run, hm, hl, hs2, hf, hn]
          | ok rows =>
              refine ⟨fun _ => ?_, fun e he => ?_⟩
              · refine ⟨?_, ?_, ?_⟩ <;> simp [run, hm, hl, hs2, hf, hn]
              · simp [run, hm, hl, hs2, hf, hn] at he
      · refine ⟨fun h => ?_, fun e _ => ?_⟩
        · simp [run, hm, hl, hs2] at h
        · simp [run, hm, hl, hs2]

/-- C9: when the first steps succeed but no archive member names the
target CSV, the run aborts with ArchiveMemberNotFound; the destination
grid, the log sheet and the notification flag are exactly as before the
run, and no observable write event happened. -/
theorem C9_archive_missing_aborts (inp : Input) (w : World)
    (hm : inp.message?.isSome = true) (hl : inp.link?.isSome = true)
    (hs : inp.downloadStatus = 200)
    (hf : ∀ f ∈ inp.filelist, ¬namesTarget f TARGET_CSV) :
    (run inp w).2.2 = some .ArchiveMemberNotFound ∧
    ((run inp w).1).dest = w.dest ∧
    ((run inp w).1).log = w.log ∧
    ((run inp w).1).notifConsumed = w.notifConsumed ∧
    (run inp w).2.1 = [] := by
  obtain ⟨m, hm'⟩ := Option.isSome_iff_exists.mp hm
  obtain ⟨l, hl'⟩ := Option.isSome_iff_exists.mp hl
  have hft : find_target inp.filelist TARGET_CSV = none := find_target_eq_none_iff.mpr hf
  simp [run, hm', hl', hs, hft]

/-- Collaborator outcomes of a run whose archive listing lacks the target
CSV while every earlier step succeeds. -/
def sample_input_missing : Input :=
  { message? := some "feed body"
    link? := some "https://backend.api.data.wheelpros.com/prod/feed/download?x=1"
    downloadStatus := 200
    filelist := ["readme.txt"]
    csv := ⟨[], []⟩
    now := "2024-01-02 09:00 AM" }

/-- Collaborator outcomes of a fully successful run. -/
def sample_input_ok : Input :=
  { message? := some "feed body"
    link? := some "https://backend.api.data.wheelpros.com/prod/feed/download?x=1"
    downloadStatus := 200
    filelist := ["data/wheelInvPriceData.csv"]
    csv := { header := ["PartNumber", "PartDescription", "TotalQOH"]
             rows := [[some (.str "00123"), some (.str "Rim A"), some (.num 10)]] }
    now := "2024-01-02 09:00 AM" }

/-- A destination and log state predating the sample runs. -/
def sample_world : World :=
  { dest := [[Cell.str "stale"]]
    log := some [log_header_row, sample_old]
    notifConsumed := false }

theorem C8_consume_only_last_witness :
    (run sample_input_ok sample_world).2.1.getLast? = some .consumed ∧
    ((run sample_input_ok sample_world).1).notifConsumed = true ∧
    Event.consumed ∉ (run sample_input_missing sample_world).2.1 ∧
    ((run sample_input_missing sample_world).1).notifConsumed
      = sample_world.notifConsumed :=
  have h1 := (C8_consume_only_last sample_input_ok sample_world).1 rfl
  have h2 := (C8_consume_only_last sample_input_missing sample_world).2
    .ArchiveMemberNotFound rfl
  ⟨h1.1, h1.2.2, h2.1, h2.2⟩

theorem C9_archive_missing_aborts_witness :
    (run sample_input_missing sample_world).2.2 = some .ArchiveMemberNotFound ∧
    ((run sample_input_missing sample_world).1).dest = sample_world.dest ∧
    ((run sample_input_missing sample_world).1).log = sample_world.log ∧
    ((run sample_input_missing sample_world).1).notifConsumed
      = sample_world.notifConsumed ∧
    (run sample_input_missing sample_world).2.1 = [] :=
  C9_archive_missing_aborts sample_input_missing sample_world rfl rfl rfl
    (by
      intro f hf
      obtain rfl := List.mem_singleton.mp hf
      rintro (h | ⟨pre, h⟩)
      · exact absurd h (by decide)
      · have hlen := congrArg List.length h
        simp only [List.length_map, List.length_append, List.length_cons,
          List.length_nil] at hlen
        rw [show ((TARGET_CSV.data).length) = 21 from rfl] at hlen
        omega)

/-- Collaborator outcomes of a successful run whose quantity cells are all
unparseable (null and therefore filled with the empty-string sentinel). -/
def sample_input_blank : Input :=
  { message? := some "feed body"
    link? := some "https://backend.api.data.wheelpros.com/prod/feed/download?x=1"
    downloadStatus := 200
    filelist := ["data/wheelInvPriceData.csv"]
    csv := { header := ["PartNumber", "PartDescription", "TotalQOH"]
             rows := [[some (.str "ABC"), none, none]] }
    now := "2024-01-03 09:00 AM" }

theorem C10_tracked_total_witness :
    total_qoh [⟨Cell.str "123", Cell.str "Rim A", Cell.num 10⟩]
      = ((([⟨Cell.str "123", Cell.str "Rim A", Cell.num 10⟩] : List InventoryRow).map
          (fun r => parseCell r.totalQOH)).reduceOption).sum ∧
    total_qoh [⟨Cell.str "ABC", Cell.str "", Cell.str ""⟩] = 0 ∧
    ((run sample_input_ok sample_world).1).log.isSome = true := by
  have h := C10_tracked_total sample_input_ok sample_world
    [⟨Cell.str "123", Cell.str "Rim A", Cell.num 10⟩] rfl rfl
  have hb := C10_tracked_total sample_input_blank sample_world
    [⟨Cell.str "ABC", Cell.str "", Cell.str ""⟩] rfl rfl
  refine ⟨h.1, hb.2.1 ?_, ?_⟩
  · intro r hr
    obtain rfl := List.mem_singleton.mp hr
    rfl
  · obtain ⟨lg, hlg, _⟩ := h.2.2
    rw [hlg]
    rfl

end WheelPros
